import Mathlib

/-!
Verification of the release-processing pipeline of `switch-predb` (`src/main.py`)
against its natural-language specification.

The Python source is shallowly embedded: pure helpers become Lean functions on
`Nat` / `List Char` / `String`; the process-wide mutable state (`OLD_HASH_SET`,
`CACHE`) is threaded explicitly; network collaborators (`requests` via
`request_url`) are oracle parameters, where `none` stands for the wrapper's
caller-supplied default returned on a transport failure or non-2xx status;
a Python exception escaping a function is `Except.error` / an error component.
-/

namespace SwitchPredb

/-- A Python exception type escaping the embedded code. -/
inductive PyErr where
  | typeError
  | attributeError
  | valueError
  | indexError
deriving DecidableEq, Repr

/-! ## Hexadecimal strings: `int(s, 16)` and `hex(n)` (src/main.py:193-196)

`mask_title_id` does `int(title_id, 16)`, masks, and renders with
`hex(..)[2:].upper()`.  `int(s, 16)` is modelled on its domain of use (a
non-empty string of hex digits, as produced by the title-id regex after the
`X -> 0` substitution); on anything else it raises `ValueError`, i.e. `none`.
-/

/-- Value of one hex digit, or `none` if the character is not a hex digit. -/
def hexDigitVal? (c : Char) : Option Nat :=
  if '0' ≤ c ∧ c ≤ '9' then some (c.toNat - '0'.toNat)
  else if 'a' ≤ c ∧ c ≤ 'f' then some (c.toNat - 'a'.toNat + 10)
  else if 'A' ≤ c ∧ c ≤ 'F' then some (c.toNat - 'A'.toNat + 10)
  else none

/-- Left-to-right accumulation of hex digits, failing on a non-digit. -/
def hexNatAux : Nat → List Char → Option Nat
  | acc, [] => some acc
  | acc, c :: cs =>
    match hexDigitVal? c with
    | some d => hexNatAux (16 * acc + d) cs
    | none => none

/-- `int(s, 16)` on a plain string of hex digits (empty or invalid: `ValueError`). -/
def hexToNat? (s : String) : Option Nat :=
  if s.data = [] then none else hexNatAux 0 s.data

/-- Lowercase hex digit for `m < 16`, as produced by Python's `hex`. -/
def hexDigitLower (m : Nat) : Char :=
  if m < 10 then Char.ofNat ('0'.toNat + m) else Char.ofNat ('a'.toNat + m - 10)

/-- Digit emitter for `hex(n)[2:]`: peels `n` least-significant digit first,
with an explicit fuel (`n` itself bounds the digit count). -/
def toHexAux (digit : Nat → Char) (b : Nat) : Nat → Nat → List Char → List Char
  | 0, _, acc => acc
  | fuel + 1, n, acc =>
    if n = 0 then acc else toHexAux digit b fuel (n / b) (digit (n % b) :: acc)

/-- `hex(n)[2:]`: lowercase hex digits of `n`, no leading zeros, `"0"` for zero. -/
def natToHexLower (n : Nat) : List Char :=
  if n = 0 then ['0'] else toHexAux hexDigitLower 16 n n []

/-- `TITLE_ID_BASE_MASK` (src/main.py:40). -/
def TITLE_ID_BASE_MASK : Nat := 0xFFFFFFFFFFFFE000

/-- `mask_title_id` (src/main.py:193-196):
`"0" + hex(int(title_id, 16) & TITLE_ID_BASE_MASK)[2:].upper()`.
`none` models the `ValueError` of `int` on a non-hex argument. -/
def mask_title_id (title_id : String) : Option String :=
  (hexToNat? title_id).map fun v =>
    String.mk ('0' :: (natToHexLower (v &&& TITLE_ID_BASE_MASK)).map Char.toUpper)

/-! ## `humansize` (src/main.py:221-231)

The source divides a Python float by `1024.` up to five times.  Dividing a
float by 1024 only decrements its exponent, so every intermediate value is
exactly `size / 1024 ^ index`; the embedding therefore carries the original
integer `size` and the `index` and works with that exact rational, which
agrees with the source for every size below 2^53 (where the int-to-float
conversion is also exact).  `'%.2f'` performs correct rounding of the exact
value to two decimals, ties to even, which `fmt2Scaled` reproduces.
-/

/-- `suffixes` (src/main.py:222). -/
def SUFFIXES : List String := ["B", "KiB", "MiB", "GiB", "TiB", "PiB"]

/-- The `while size >= 1024 and index < len(suffixes)-1` loop: the running
float equals `size / 1024 ^ index`, so the guard `size' >= 1024` is
`1024 ^ (index+1) ≤ size`.  Fuel 5 is never exhausted (index stops at 5). -/
def humansizeAux : Nat → Nat → Nat → Nat × Nat
  | 0, size, index => (size, index)
  | fuel + 1, size, index =>
    if 1024 ^ (index + 1) ≤ size ∧ index < SUFFIXES.length - 1 then
      humansizeAux fuel size (index + 1)
    else (size, index)

/-- Decimal digit character for `m < 10`. -/
def decDigit (m : Nat) : Char := Char.ofNat ('0'.toNat + m)

/-- Decimal digits of `n` (no leading zeros, `"0"` for zero). -/
def natDecimal (n : Nat) : List Char :=
  if n = 0 then ['0'] else toHexAux decDigit 10 n n []

/-- `'%.2f' % (size / 1024 ^ index)`: round `100 * size / 1024 ^ index` to the
nearest integer, ties to even, then print with two forced decimals. -/
def fmt2Scaled (size index : Nat) : List Char :=
  let d := 1024 ^ index
  let q := (100 * size) / d
  let r := (100 * size) % d
  let n := if 2 * r < d then q else if d < 2 * r then q + 1
           else if q % 2 = 0 then q else q + 1
  natDecimal (n / 100) ++ '.' ::
    (if n % 100 < 10 then '0' :: natDecimal (n % 100) else natDecimal (n % 100))

/-- Python `str.rstrip` with a single-character argument: remove every
trailing occurrence of `c`. -/
def pyRstrip (l : List Char) (c : Char) : List Char :=
  (l.reverse.dropWhile (· = c)).reverse

/-- `humansize` (src/main.py:221-231). -/
def humansize (size : Nat) : String :=
  let p := humansizeAux (SUFFIXES.length - 1) size 0
  String.mk (pyRstrip (pyRstrip (fmt2Scaled p.1 p.2) '0') '.') ++ " " ++
    SUFFIXES.getD p.2 ""

/-! ## `TITLE_ID_REGEX` (src/main.py:41) and its use in `parse_nfo`

The pattern is `01[A-Fa-f0-9X]{12,}`: the literal characters `01`, then
twelve or more characters from the class — hex digits of either case, or the
UPPERCASE placeholder `X` only.  `re.search` yields the leftmost match; the
greedy unbounded quantifier with nothing after it extends the run maximally.
-/

/-- Membership in the character class `[A-Fa-f0-9X]`. -/
def isTidChar (c : Char) : Bool :=
  ('0' ≤ c && c ≤ '9') || ('A' ≤ c && c ≤ 'F') || ('a' ≤ c && c ≤ 'f') || c = 'X'

/-- Try the pattern anchored at the head of `l`: `01`, then the maximal run
of class characters, succeeding when that run has length at least 12. -/
def tidMatchAt (l : List Char) : Option (List Char) :=
  match l with
  | c1 :: c2 :: rest =>
    if c1 = '0' ∧ c2 = '1' then
      let run := rest.takeWhile isTidChar
      if 12 ≤ run.length then some ('0' :: '1' :: run) else none
    else none
  | _ => none

/-- `re.search`: scan start positions left to right, return the first match. -/
def tidSearch : List Char → Option (List Char)
  | [] => none
  | c :: rest =>
    match tidMatchAt (c :: rest) with
    | some m => some m
    | none => tidSearch rest

/-- `title_id.group().replace("X", "0")` (src/main.py:212): only the
uppercase placeholder is substituted. -/
def replaceX (m : List Char) : List Char :=
  m.map fun c => if c = 'X' then '0' else c

/-- The identifier-extraction part of `parse_nfo` (src/main.py:206-212):
`TITLE_ID_REGEX.search(nfo)` followed by `.group().replace("X", "0")`. -/
def tidExtract (nfo : String) : Option String :=
  (tidSearch nfo.data).map fun m => String.mk (replaceX m)

/-- Modelled from the spec: claim C7 reads the pattern as matching "the two
characters 01 followed by 12 or more hexadecimal digits or the literal
placeholder character, matching case-insensitively for both the hex digits
and the placeholder", with every placeholder occurrence then replaced by `0`.
This definition follows those words: the class also accepts the lowercase
placeholder, and the substitution removes both cases of it.  It exists only
to be compared with `tidExtract`, which is translated from the source. -/
def isTidCharClaim (c : Char) : Bool :=
  ('0' ≤ c && c ≤ '9') || ('A' ≤ c && c ≤ 'F') || ('a' ≤ c && c ≤ 'f') ||
    c = 'X' || c = 'x'

/-- Modelled from the spec: anchored match with the case-insensitive class. -/
def tidMatchAtClaim (l : List Char) : Option (List Char) :=
  match l with
  | c1 :: c2 :: rest =>
    if c1 = '0' ∧ c2 = '1' then
      let run := rest.takeWhile isTidCharClaim
      if 12 ≤ run.length then some ('0' :: '1' :: run) else none
    else none
  | _ => none

/-- Modelled from the spec: leftmost match with the case-insensitive class. -/
def tidSearchClaim : List Char → Option (List Char)
  | [] => none
  | c :: rest =>
    match tidMatchAtClaim (c :: rest) with
    | some m => some m
    | none => tidSearchClaim rest

/-- Modelled from the spec: claim C7's extraction, case-insensitive
placeholder matching and substitution. -/
def tidExtractClaim (nfo : String) : Option String :=
  (tidSearchClaim nfo.data).map fun m =>
    String.mk (m.map fun c => if c = 'X' ∨ c = 'x' then '0' else c)

/-! ## `parse_nfo` (src/main.py:199-218)

`request_url(nfo_url, "NFO")` is the fetch oracle: `none` is the default
returned on a failed request, in which case the source evaluates
`None.content` and raises `AttributeError`; `some body` is the response body
already decoded from cp437 (a total byte-to-char decoding).  The
`CACHE["nfos"]` dict is threaded as an association list. -/
def parse_nfo (resp : Option String) (nfos : List (String × String)) :
    List (String × String) × Except PyErr (Option (String × String)) :=
  match resp with
  | none => (nfos, Except.error PyErr.attributeError)
  | some nfo =>
    if nfo = "" then (nfos, Except.ok none)
    else
      match tidExtract nfo with
      | none => (nfos, Except.ok none)
      | some tid =>
        match mask_title_id tid with
        | none => (nfos, Except.error PyErr.valueError)
        | some masked =>
          let nfos2 := if (nfos.lookup tid).isSome then nfos else (tid, nfo) :: nfos
          (nfos2, Except.ok (some (tid, masked)))

/-! ## Deduplication: `OLD_HASH_SET` and `find_new_releases` (src/main.py:36,166-181)

A catalog entry carries the fields the pipeline reads: `release["release"]`
and `release["hasNFO"]`.  `OLD_HASH_SET` is threaded as a list used as a set
of digests.  `md5(name.encode()).hexdigest()` is an oracle parameter
`hash : String → String`: the claims about the deduplicator only use that a
function of the name sends equal names to equal keys. -/
structure Release where
  release : String
  hasNFO : Bool
deriving DecidableEq, Repr

/-- The `for release in releases` loop of `find_new_releases`, with the
`initial` flag already computed.  Returns the final `OLD_HASH_SET` and the
yielded releases, in order. -/
def findNewAux (hash : String → String) (initial : Bool) :
    List Release → List String → List String × List Release
  | [], seen => (seen, [])
  | r :: rs, seen =>
    let h := hash r.release
    if initial then findNewAux hash initial rs (h :: seen)
    else if h ∈ seen then findNewAux hash initial rs seen
    else
      let p := findNewAux hash initial rs (h :: seen)
      (p.1, r :: p.2)

/-- `find_new_releases` (src/main.py:166-181):
`initial = not OLD_HASH_SET and not DEBUG` absorbs the very first scan of a
non-debug process without yielding anything. -/
def findNewReleases (hash : String → String) (debug : Bool)
    (seen : List String) (releases : List Release) : List String × List Release :=
  let initial := seen.isEmpty && !debug
  findNewAux hash initial releases seen

/-- One process lifetime: successive scans fed through `find_new_releases`
against the same growing `OLD_HASH_SET`; all yielded releases, concatenated. -/
def processScans (hash : String → String) (debug : Bool) :
    List (List Release) → List String → List String × List Release
  | [], seen => (seen, [])
  | b :: bs, seen =>
    let p := findNewReleases hash debug seen b
    let q := processScans hash debug bs p.1
    (q.1, p.2 ++ q.2)

/-! ## `get_details` and `CACHE["releases"]` (src/main.py:44-47,184-190)

`fetch` is the oracle for `request_url(SRRDB_RELEASE_URL..., "DET",
apply="json")`: `none` is the default returned on failure.  The cache maps a
release name to whatever value the source assigned — possibly that `None`
default, which Python stores like any other value.  The third component
records whether this call performed the network fetch. -/
def get_details {α : Type} (fetch : String → Option α)
    (cache : List (String × Option α)) (name : String) :
    Option α × List (String × Option α) × Bool :=
  match cache.lookup name with
  | some v => (v, cache, false)
  | none =>
    let details := fetch name
    (details, (name, details) :: cache, true)

/-! ## `make_twitter_post` (src/main.py:380-395) -/

/-- One successful media upload collected by `upload_media`
(src/main.py:434-469): source URL plus the sink-assigned `media_id`. -/
structure MediaEntry where
  url : String
  media_id : Nat
deriving DecidableEq, Repr

/-- The enriched record built by `get_info` (src/main.py:234-267), with the
`media` list `upload_media` later attaches. -/
structure ReleaseInfo where
  tid : String
  masked_tid : String
  title : String
  size : String
  crc : String
  proof : Option String
  nfo : String
  thumb : String
  media : List MediaEntry
deriving DecidableEq, Repr

/-- `str.rfind(c)`: highest index of `c` in `s`, or `-1` when absent. -/
def pyRfind (s : String) (c : Char) : Int :=
  match s.data.reverse.findIdx? (fun x => x == c) with
  | some j => (s.data.length : Int) - 1 - j
  | none => -1

/-- `s[i:]` for a non-negative start index (the only use below is
`rfind + 1`, which is at least 0). -/
def pySliceFrom (s : String) (i : Int) : String :=
  String.mk (s.data.drop i.toNat)

/-- The payload of `make_twitter_post`: the `text` body, and the optional
`media.media_ids` list (absent when `release_info["media"]` is falsy). -/
structure TwitterPost where
  text : String
  media_ids : Option (List String)
deriving DecidableEq, Repr

/-- `make_twitter_post` (src/main.py:380-395).  The uploader in the body is
`title[title.rfind('-')+1:]`. -/
def make_twitter_post (info : ReleaseInfo) : TwitterPost :=
  { text :=
      "\nNew Release by " ++ pySliceFrom info.title (pyRfind info.title '-' + 1) ++
      "!\n    \n" ++ info.title ++ " [" ++ info.tid ++ "][" ++ info.crc ++
      "]\nSize: " ++ info.size ++
      "\n\nView on Tinfoil: https://tinfoil.io/Title/" ++ info.masked_tid ++
      "\nView on eShop: https://ec.nintendo.com/apps/" ++ info.masked_tid ++
      "/US\n"
    media_ids :=
      if info.media.isEmpty then none
      else some (info.media.map fun e => toString e.media_id) }

/-! ## `scan_srrdb`, `handle_releases`, and one cycle of `main_loop`
(src/main.py:162-163, 486-540, 543-554)

Network collaborators appear as oracles; `none` is always the `request_url`
default produced by a transport failure or non-2xx status.  The observable
side effects of a cycle (log/publish calls, database insert, sleep) are
recorded as a trace of `Action`s; a Python exception escaping the cycle is
the `Option PyErr` component (the trace up to the exception is kept, since
completed effects are not rolled back). -/

/-- `scan_srrdb` (src/main.py:162-163): `request_url(...)["results"]`.
When the fetch fails the default `None` is subscripted, raising `TypeError`. -/
def scan_srrdb (resp : Option (List Release)) : Except PyErr (List Release) :=
  match resp with
  | none => Except.error PyErr.typeError
  | some results => Except.ok results

/-- Configuration fields read by `handle_releases` and `main_loop`. -/
structure Config where
  renderer : String
  mongoEnabled : Bool
  debug : Bool
deriving DecidableEq, Repr

/-- Collaborator outcomes for the publish pipeline, per release name.
`getInfo` stands for `get_info` (its internals are exercised by the
extraction claims); `uploadResp` is the zipline response's `"files"` list
(`none`: failed upload request); `mediaUploads` the successful media uploads
collected by `upload_media` (failed ones are silently omitted there);
`tweetResp` the tweet response's `data.id` (`none`: failed post). -/
structure PubWorld where
  getInfo : String → Option ReleaseInfo
  uploadResp : String → Option (List String)
  mediaUploads : String → List MediaEntry
  tweetResp : String → Option String

/-- Observable side effects of `handle_releases`. -/
inductive Action where
  | foundLog (title : String)
  | noNfoWarn (title : String)
  | renderNfo (title : String)
  | uploadNfo (title : String)
  | mongoInsert (title : String)
  | tweetPost (title : String)
  | announceLog (title : String) (tweetId : String)
  | sleepMinute
deriving DecidableEq, Repr

/-- `handle_releases` (src/main.py:486-540).  Stage order per release:
found-log; `hasNFO` check; `get_info` (skip on absent); render via the
configured backend (unknown renderer raises `ValueError`); `upload_nfo`
(skip the rest of this release when the upload request fails, otherwise
overwrite `release_info["nfo"]` with `response["files"][0]`); optional
Mongo insert; `post_to_twitter`; then the announce log, which reads
`response['data']['id']` and therefore raises `TypeError` when the tweet
request returned the `None` default; `return` in debug mode; sleep. -/
def handle_releases (cfg : Config) (w : PubWorld) :
    List Release → List Action × Option PyErr
  | [] => ([], none)
  | r :: rs =>
    let t := r.release
    if !r.hasNFO then
      let p := handle_releases cfg w rs
      (Action.foundLog t :: Action.noNfoWarn t :: p.1, p.2)
    else
      match w.getInfo t with
      | none =>
        let p := handle_releases cfg w rs
        (Action.foundLog t :: p.1, p.2)
      | some info =>
        if cfg.renderer = "pyansi" ∨ cfg.renderer = "builtin" ∨
            cfg.renderer = "infekt" then
          match w.uploadResp info.title with
          | none =>
            let p := handle_releases cfg w rs
            (Action.foundLog t :: Action.renderNfo t :: Action.uploadNfo t ::
              p.1, p.2)
          | some files =>
            match files.head? with
            | none =>
              ([Action.foundLog t, Action.renderNfo t, Action.uploadNfo t],
                some PyErr.indexError)
            | some url =>
              let info2 := { info with nfo := url, media := w.mediaUploads t }
              let _post := make_twitter_post info2
              let pre := Action.foundLog t :: Action.renderNfo t ::
                Action.uploadNfo t ::
                ((if cfg.mongoEnabled then [Action.mongoInsert t] else []) ++
                  [Action.tweetPost t])
              match w.tweetResp t with
              | none => (pre, some PyErr.typeError)
              | some tweetId =>
                if cfg.debug then (pre ++ [Action.announceLog t tweetId], none)
                else
                  let p := handle_releases cfg w rs
                  (pre ++ Action.announceLog t tweetId :: Action.sleepMinute ::
                    p.1, p.2)
        else ([Action.foundLog t], some PyErr.valueError)

/-- One iteration of `main_loop` (src/main.py:543-554): scan, deduplicate,
handle.  Returns the `OLD_HASH_SET` after the cycle, the action trace, and
the exception aborting the cycle, if any. -/
def mainCycle (hash : String → String) (cfg : Config) (w : PubWorld)
    (scanResp : Option (List Release)) (seen : List String) :
    List String × List Action × Option PyErr :=
  match scan_srrdb scanResp with
  | Except.error e => (seen, [], some e)
  | Except.ok results =>
    let p := findNewReleases hash cfg.debug seen results
    let q := handle_releases cfg w p.2
    (p.1, q.1, q.2)

/-! ## Claim C1 — the masking example -/

/-- C1 counterexample: the spec's masking example is wrong on the code.
`TITLE_ID_BASE_MASK = 0xFFFFFFFFFFFFE000` clears only the low 13 bits, so
the raw identifier `0100ABCDEF123456` masks to `0100ABCDEF122000`, not to
the claimed `0100ABCDE0000000`. -/
theorem c1_mask_example_counterexample :
    mask_title_id "0100ABCDEF123456" ≠ some "0100ABCDE0000000" ∧
    mask_title_id "0100ABCDEF123456" = some "0100ABCDEF122000" := by
  decide

/-- C1 amended: for the raw product identifier `0100ABCDEF123456`, the
masking operation (bitwise AND with `0xFFFFFFFFFFFFE000`, rendered as
uppercase hex with a forced leading `0`) returns `0100ABCDEF122000`, the
low 13 bits cleared. -/
theorem c1_mask_example_amended :
    mask_title_id "0100ABCDEF123456" = some "0100ABCDEF122000" := by
  decide

/-! ## Claim C3 — the details cache also caches failed fetches -/

/-- C3 counterexample: with a failing details fetch and an initially empty
`CACHE["releases"]`, the first `get_details` call stores the `None` default
under the name (the cache is not left empty), and a second call for the
same name does not fetch again — it returns the cached `None`. -/
theorem c3_details_cache_counterexample :
    (get_details (fun _ => (none : Option Nat)) [] "Game-GRP").2.1.lookup
      "Game-GRP" = some none ∧
    (get_details (fun _ => (none : Option Nat))
      (get_details (fun _ => (none : Option Nat)) [] "Game-GRP").2.1
      "Game-GRP") = (none, [("Game-GRP", none)], false) := by
  decide

/-- C3 amended: `get_details` caches every fetch outcome, including the
absent default of a failed fetch: after a cache miss the fetched value —
even `none` — is stored under the name, and a later lookup of the same name
returns that cached value without performing the fetch again. -/
theorem c3_details_cache_amended {α : Type} (fetch : String → Option α)
    (cache : List (String × Option α)) (name : String)
    (hmiss : cache.lookup name = none) (hfail : fetch name = none) :
    (get_details fetch cache name).2.1.lookup name = some none ∧
    get_details fetch (get_details fetch cache name).2.1 name =
      (none, (get_details fetch cache name).2.1, false) := by
  simp [get_details, hmiss, hfail, List.lookup]

/-- Witness for C3 amended at a concrete failing fetch. -/
theorem c3_details_cache_amended_witness :
    (get_details (fun _ => (none : Option Nat)) [] "Game-GRP").2.1.lookup
      "Game-GRP" = some none ∧
    get_details (fun _ => (none : Option Nat))
      (get_details (fun _ => (none : Option Nat)) [] "Game-GRP").2.1
      "Game-GRP" =
      (none, (get_details (fun _ => (none : Option Nat)) [] "Game-GRP").2.1,
        false) :=
  c3_details_cache_amended (fun _ => (none : Option Nat)) [] "Game-GRP" rfl rfl

/-! ## Claim C4 — empty versus unreachable catalog scan -/

/-- C4: when the scan fetch succeeds with zero results the cycle really is a
no-op — the seen-set is unchanged, no candidate is handled, no effect is
produced.  But when the scan fetch fails, `scan_srrdb` subscripts the `None`
default (`request_url(...)["results"]`), so the cycle aborts with a
`TypeError` instead of proceeding to the next cycle without error. -/
theorem c4_scan_cycle_behavior (hash : String → String) (cfg : Config)
    (w : PubWorld) (seen : List String) :
    mainCycle hash cfg w (some []) seen = (seen, [], none) ∧
    mainCycle hash cfg w none seen = (seen, [], some PyErr.typeError) :=
  ⟨rfl, rfl⟩

/-! ## Claim C5 — document fetch: empty body versus failed fetch -/

/-- C5: an empty fetched document makes `parse_nfo` return the absent
result, and the deduplicator records a candidate's key in `OLD_HASH_SET`
at the moment it yields it, so an identical later candidate is filtered
(never retried).  But a FAILED document fetch does not yield an absent
result: `parse_nfo` evaluates `None.content` and raises `AttributeError`. -/
theorem c5_nfo_fetch_behavior :
    parse_nfo none [] = ([], Except.error PyErr.attributeError) ∧
    parse_nfo (some "") [] = ([], Except.ok none) ∧
    findNewReleases (fun s => s) false ["seed"]
      [{ release := "REL", hasNFO := true }] =
      (["REL", "seed"], [{ release := "REL", hasNFO := true }]) ∧
    findNewReleases (fun s => s) false ["REL", "seed"]
      [{ release := "REL", hasNFO := true }] = (["REL", "seed"], []) :=
  ⟨rfl, rfl, rfl, rfl⟩

/-! ## Claim C6 — publish-stage failure -/

/-- Concrete collaborator outcomes for the publish-stage scenarios: the
upload request fails for release `FAILUP`, the tweet post fails for release
`FAILTW`, and everything succeeds for release `OK`. -/
def c6World : PubWorld :=
  { getInfo := fun t =>
      some { tid := "0100ABCDEF123456", masked_tid := "0100ABCDEF122000",
             title := t, size := "1 GiB", crc := "ABCD1234", proof := none,
             nfo := "nfo-url", thumb := "thumb-url", media := [] }
    uploadResp := fun t => if t == "FAILUP" then none else some ["zip-url"]
    mediaUploads := fun _ => []
    tweetResp := fun t => if t == "FAILTW" then none else some "777" }

/-- Configuration for the C6 scenarios: builtin renderer, Mongo enabled. -/
def c6Cfg : Config := { renderer := "builtin", mongoEnabled := true, debug := false }

/-- C6: a rejected artifact upload does skip the remaining stages for that
release only — the next release is processed in full and nothing is rolled
back.  But a rejected announce post does NOT merely skip: after the upload
and the Mongo insert have completed (and stay completed), `handle_releases`
reads `response['data']['id']` from the `None` default and raises
`TypeError`, aborting the whole loop — the following release is never
processed. -/
theorem c6_publish_failure_behavior :
    handle_releases c6Cfg c6World
      [{ release := "FAILUP", hasNFO := true },
       { release := "OK", hasNFO := true }] =
      ([Action.foundLog "FAILUP", Action.renderNfo "FAILUP",
        Action.uploadNfo "FAILUP", Action.foundLog "OK",
        Action.renderNfo "OK", Action.uploadNfo "OK",
        Action.mongoInsert "OK", Action.tweetPost "OK",
        Action.announceLog "OK" "777", Action.sleepMinute], none) ∧
    handle_releases c6Cfg c6World
      [{ release := "FAILTW", hasNFO := true },
       { release := "OK", hasNFO := true }] =
      ([Action.foundLog "FAILTW", Action.renderNfo "FAILTW",
        Action.uploadNfo "FAILTW", Action.mongoInsert "FAILTW",
        Action.tweetPost "FAILTW"], some PyErr.typeError) := by
  decide

/-! ## Claim C8 — the human-readable size function -/

/-- C8: `humansize` scales by 1024 while at least 1024 and a larger suffix
remains, formats with two decimals, strips trailing zeros and a trailing
point; on the spec's examples: 0, 1024, 1536 and 1073741824 bytes. -/
theorem c8_humansize_examples :
    humansize 0 = "0 B" ∧ humansize 1024 = "1 KiB" ∧
    humansize 1536 = "1.5 KiB" ∧ humansize 1073741824 = "1 GiB" := by
  decide

/-! ## Claim C9 — masking is idempotent

The key fact is a parse/render roundtrip: reading back the uppercase hex
string produced for `n` (with its forced leading `0`) yields `n` again, and
`(v &&& mask) &&& mask = v &&& mask`. -/

/-- The value accumulated by `hexNatAux` after consuming the hex digits of
`n` on top of a previous accumulator `a`. -/
def pushHexVal (a : Nat) : Nat → Nat
  | 0 => a
  | n + 1 => 16 * pushHexVal a ((n + 1) / 16) + (n + 1) % 16
decreasing_by exact Nat.div_lt_self (Nat.succ_pos n) (by decide)

theorem pushHexVal_zero_arg (a : Nat) : pushHexVal a 0 = a := by
  simp [pushHexVal]

theorem pushHexVal_ne_zero (a n : Nat) (h : n ≠ 0) :
    pushHexVal a n = 16 * pushHexVal a (n / 16) + n % 16 := by
  cases n with
  | zero => exact absurd rfl h
  | succ m => rw [pushHexVal]

theorem pushHexVal_zero_left : ∀ n, pushHexVal 0 n = n := by
  intro n
  induction n using Nat.strong_induction_on with
  | _ n ih =>
    cases n with
    | zero => exact pushHexVal_zero_arg 0
    | succ m =>
      rw [pushHexVal, ih ((m + 1) / 16) (Nat.div_lt_self (Nat.succ_pos m) (by decide))]
      exact Nat.div_add_mod (m + 1) 16

theorem hexDigit_roundtrip :
    ∀ m, m < 16 → hexDigitVal? (Char.toUpper (hexDigitLower m)) = some m := by
  decide

theorem hexNatAux_toHexAux_upper :
    ∀ (fuel : Nat), ∀ (n : Nat) (acc : List Char) (a : Nat), n ≤ fuel →
      hexNatAux a ((toHexAux hexDigitLower 16 fuel n acc).map Char.toUpper) =
        hexNatAux (pushHexVal a n) (acc.map Char.toUpper) := by
  intro fuel
  induction fuel with
  | zero =>
    intro n acc a hn
    have h0 : n = 0 := Nat.le_zero.mp hn
    subst h0
    rw [pushHexVal_zero_arg]
    rfl
  | succ fuel ih =>
    intro n acc a hn
    by_cases h0 : n = 0
    · subst h0
      rw [pushHexVal_zero_arg, toHexAux, if_pos rfl]
    · rw [toHexAux, if_neg h0]
      have hdiv : n / 16 ≤ fuel := by
        have := Nat.div_lt_self (Nat.pos_of_ne_zero h0) (show 1 < 16 by decide)
        omega
      rw [ih (n / 16) (hexDigitLower (n % 16) :: acc) a hdiv, List.map_cons]
      have hd := hexDigit_roundtrip (n % 16) (Nat.mod_lt n (by decide))
      simp only [hexNatAux, hd]
      rw [← pushHexVal_ne_zero a n h0]

/-- Reading back the rendered masked identifier: parsing the uppercase hex
digits of `n` behind the forced leading `0` yields `n`. -/
theorem hexToNat?_rendered (n : Nat) :
    hexToNat? (String.mk ('0' :: (natToHexLower n).map Char.toUpper)) = some n := by
  have hdata : (String.mk ('0' :: (natToHexLower n).map Char.toUpper)).data =
      '0' :: (natToHexLower n).map Char.toUpper := rfl
  rw [hexToNat?, hdata, if_neg (by simp)]
  have h0 : hexNatAux 0 ('0' :: (natToHexLower n).map Char.toUpper) =
      hexNatAux 0 ((natToHexLower n).map Char.toUpper) := rfl
  rw [h0, natToHexLower]
  by_cases hn : n = 0
  · subst hn
    rfl
  · rw [if_neg hn, hexNatAux_toHexAux_upper n n [] 0 (Nat.le_refl n)]
    rw [pushHexVal_zero_left n]
    rfl

theorem land_mask_idem (v : Nat) :
    v &&& TITLE_ID_BASE_MASK &&& TITLE_ID_BASE_MASK = v &&& TITLE_ID_BASE_MASK :=
  Nat.eq_of_testBit_eq fun i => by simp [Nat.testBit_land, Bool.and_assoc]

/-- C9: masking is idempotent on identifier strings — whenever
`mask_title_id x` succeeds and returns `t`, applying `mask_title_id` to `t`
returns `t` again, i.e. `mask(mask(x)) = mask(x)`. -/
theorem c9_mask_idempotent (x t : String) (h : mask_title_id x = some t) :
    mask_title_id t = some t := by
  rw [mask_title_id, Option.map_eq_some'] at h
  obtain ⟨v, _, ht⟩ := h
  subst ht
  rw [mask_title_id, hexToNat?_rendered, Option.map_some', land_mask_idem]

/-- Witness for C9: the masked form of the raw identifier
`0100ABCDEF123456` is a fixed point of the masking operation. -/
theorem c9_mask_idempotent_witness :
    mask_title_id "0100ABCDEF122000" = some "0100ABCDEF122000" :=
  c9_mask_idempotent "0100ABCDEF123456" "0100ABCDEF122000" (by decide)

/-! ## Claim C10 — the uploader field for a hyphen-free release name -/

/-- C10: when the release name contains no hyphen, `title.rfind('-')`
returns `-1`, the slice `title[-1+1:]` is the whole title, and the composed
announcement body credits the entire release name as the uploader. -/
theorem c10_uploader_no_hyphen (info : ReleaseInfo)
    (h : ∀ c ∈ info.title.data, c ≠ '-') :
    (make_twitter_post info).text =
      "\nNew Release by " ++ info.title ++ "!\n    \n" ++ info.title ++ " [" ++
        info.tid ++ "][" ++ info.crc ++ "]\nSize: " ++ info.size ++
        "\n\nView on Tinfoil: https://tinfoil.io/Title/" ++ info.masked_tid ++
        "\nView on eShop: https://ec.nintendo.com/apps/" ++ info.masked_tid ++
        "/US\n" := by
  have hfind : info.title.data.reverse.findIdx? (fun x => x == '-') = none := by
    rw [List.findIdx?_eq_none_iff]
    intro x hx
    exact beq_eq_false_iff_ne.mpr (h x (List.mem_reverse.mp hx))
  have hr : pyRfind info.title '-' = -1 := by
    rw [pyRfind, hfind]
  have hslice : pySliceFrom info.title (pyRfind info.title '-' + 1) = info.title := by
    rw [hr]
    show pySliceFrom info.title 0 = info.title
    rw [pySliceFrom]
    rfl
  rw [make_twitter_post]
  simp only [hslice]

/-- Witness for C10 on a concrete hyphen-free release name. -/
theorem c10_uploader_no_hyphen_witness :
    (make_twitter_post
      { tid := "0100ABCDEF123456", masked_tid := "0100ABCDEF122000",
        title := "SuperGame.NSW", size := "1 GiB", crc := "ABCD1234",
        proof := none, nfo := "nfo-url", thumb := "thumb-url",
        media := [] }).text =
      "\nNew Release by " ++ "SuperGame.NSW" ++ "!\n    \n" ++ "SuperGame.NSW" ++
        " [" ++ "0100ABCDEF123456" ++ "][" ++ "ABCD1234" ++ "]\nSize: " ++
        "1 GiB" ++ "\n\nView on Tinfoil: https://tinfoil.io/Title/" ++
        "0100ABCDEF122000" ++ "\nView on eShop: https://ec.nintendo.com/apps/" ++
        "0100ABCDEF122000" ++ "/US\n" :=
  c10_uploader_no_hyphen
    { tid := "0100ABCDEF123456", masked_tid := "0100ABCDEF122000",
      title := "SuperGame.NSW", size := "1 GiB", crc := "ABCD1234",
      proof := none, nfo := "nfo-url", thumb := "thumb-url", media := [] }
    (by decide)

/-! ## Claim C2 — the deduplicator yields a name at most once per lifetime

Working lemmas about `findNewAux`: the seen-set only grows, every yielded
release has its key in the resulting seen-set and not in the starting one,
and the keys of the yields of one scan are pairwise distinct.  Chaining
scans then keeps all yielded keys distinct across the whole lifetime. -/

theorem findNewAux_cons_true (hash : String → String) (r : Release)
    (rs : List Release) (seen : List String) :
    findNewAux hash true (r :: rs) seen =
      findNewAux hash true rs (hash r.release :: seen) := by
  simp [findNewAux]

theorem findNewAux_cons_mem (hash : String → String) (r : Release)
    (rs : List Release) (seen : List String) (hm : hash r.release ∈ seen) :
    findNewAux hash false (r :: rs) seen = findNewAux hash false rs seen := by
  simp [findNewAux, hm]

theorem findNewAux_cons_notMem (hash : String → String) (r : Release)
    (rs : List Release) (seen : List String) (hm : hash r.release ∉ seen) :
    findNewAux hash false (r :: rs) seen =
      ((findNewAux hash false rs (hash r.release :: seen)).1,
        r :: (findNewAux hash false rs (hash r.release :: seen)).2) := by
  simp [findNewAux, hm]

theorem findNewAux_true_yield_nil (hash : String → String) :
    ∀ (rs : List Release) (seen : List String),
      (findNewAux hash true rs seen).2 = [] := by
  intro rs
  induction rs with
  | nil => intro seen; rfl
  | cons r rs ih =>
    intro seen
    rw [findNewAux_cons_true]
    exact ih (hash r.release :: seen)

theorem findNewAux_subset (hash : String → String) (initial : Bool) :
    ∀ (rs : List Release) (seen : List String) (a : String),
      a ∈ seen → a ∈ (findNewAux hash initial rs seen).1 := by
  intro rs
  induction rs with
  | nil => intro seen a ha; exact ha
  | cons r rs ih =>
    intro seen a ha
    cases initial with
    | true =>
      rw [findNewAux_cons_true]
      exact ih _ a (List.mem_cons_of_mem _ ha)
    | false =>
      by_cases hm : hash r.release ∈ seen
      · rw [findNewAux_cons_mem hash r rs seen hm]
        exact ih seen a ha
      · rw [findNewAux_cons_notMem hash r rs seen hm]
        exact ih _ a (List.mem_cons_of_mem _ ha)

theorem findNewAux_yield_mem (hash : String → String) (initial : Bool) :
    ∀ (rs : List Release) (seen : List String) (r : Release),
      r ∈ (findNewAux hash initial rs seen).2 →
        hash r.release ∈ (findNewAux hash initial rs seen).1 ∧
          hash r.release ∉ seen := by
  intro rs
  induction rs with
  | nil => intro seen r hr; exact absurd hr (List.not_mem_nil r)
  | cons q rs ih =>
    intro seen r hr
    cases initial with
    | true =>
      rw [findNewAux_true_yield_nil] at hr
      exact absurd hr (List.not_mem_nil r)
    | false =>
      by_cases hm : hash q.release ∈ seen
      · rw [findNewAux_cons_mem hash q rs seen hm] at hr ⊢
        exact ih seen r hr
      · rw [findNewAux_cons_notMem hash q rs seen hm] at hr ⊢
        rcases List.mem_cons.mp hr with hrq | hrtail
        · subst hrq
          exact ⟨findNewAux_subset hash false rs _ _ (List.mem_cons_self _ _), hm⟩
        · have h2 := ih (hash q.release :: seen) r hrtail
          exact ⟨h2.1, fun hc => h2.2 (List.mem_cons_of_mem _ hc)⟩

theorem findNewAux_yield_nodup (hash : String → String) (initial : Bool) :
    ∀ (rs : List Release) (seen : List String),
      ((findNewAux hash initial rs seen).2.map
        (fun r => hash r.release)).Nodup := by
  intro rs
  induction rs with
  | nil => intro seen; exact List.nodup_nil
  | cons q rs ih =>
    intro seen
    cases initial with
    | true =>
      rw [findNewAux_true_yield_nil]
      exact List.nodup_nil
    | false =>
      by_cases hm : hash q.release ∈ seen
      · rw [findNewAux_cons_mem hash q rs seen hm]
        exact ih seen
      · rw [findNewAux_cons_notMem hash q rs seen hm]
        refine List.nodup_cons.mpr ⟨?_, ih (hash q.release :: seen)⟩
        intro hc
        rcases List.mem_map.mp hc with ⟨z, hz, hzeq⟩
        have h2 := findNewAux_yield_mem hash false rs (hash q.release :: seen) z hz
        exact h2.2 (hzeq ▸ List.mem_cons_self _ _)

theorem findNewReleases_subset (hash : String → String) (debug : Bool)
    (seen : List String) (rs : List Release) (a : String) (ha : a ∈ seen) :
    a ∈ (findNewReleases hash debug seen rs).1 :=
  findNewAux_subset hash (seen.isEmpty && !debug) rs seen a ha

theorem findNewReleases_yield_mem (hash : String → String) (debug : Bool)
    (seen : List String) (rs : List Release) (r : Release)
    (hr : r ∈ (findNewReleases hash debug seen rs).2) :
    hash r.release ∈ (findNewReleases hash debug seen rs).1 ∧
      hash r.release ∉ seen :=
  findNewAux_yield_mem hash (seen.isEmpty && !debug) rs seen r hr

theorem findNewReleases_yield_nodup (hash : String → String) (debug : Bool)
    (seen : List String) (rs : List Release) :
    ((findNewReleases hash debug seen rs).2.map
      (fun r => hash r.release)).Nodup :=
  findNewAux_yield_nodup hash (seen.isEmpty && !debug) rs seen

theorem processScans_subset (hash : String → String) (debug : Bool) :
    ∀ (bs : List (List Release)) (seen : List String) (a : String),
      a ∈ seen → a ∈ (processScans hash debug bs seen).1 := by
  intro bs
  induction bs with
  | nil => intro seen a ha; exact ha
  | cons b bs ih =>
    intro seen a ha
    exact ih _ a (findNewReleases_subset hash debug seen b a ha)

theorem processScans_yield_mem (hash : String → String) (debug : Bool) :
    ∀ (bs : List (List Release)) (seen : List String) (r : Release),
      r ∈ (processScans hash debug bs seen).2 →
        hash r.release ∈ (processScans hash debug bs seen).1 ∧
          hash r.release ∉ seen := by
  intro bs
  induction bs with
  | nil => intro seen r hr; exact absurd hr (List.not_mem_nil r)
  | cons b bs ih =>
    intro seen r hr
    rcases List.mem_append.mp hr with hys | hzs
    · have h1 := findNewReleases_yield_mem hash debug seen b r hys
      exact ⟨processScans_subset hash debug bs _ _ h1.1, h1.2⟩
    · have h2 := ih (findNewReleases hash debug seen b).1 r hzs
      exact ⟨h2.1, fun hc =>
        h2.2 (findNewReleases_subset hash debug seen b _ hc)⟩

theorem processScans_yield_nodup (hash : String → String) (debug : Bool) :
    ∀ (bs : List (List Release)) (seen : List String),
      ((processScans hash debug bs seen).2.map
        (fun r => hash r.release)).Nodup := by
  intro bs
  induction bs with
  | nil => intro seen; exact List.nodup_nil
  | cons b bs ih =>
    intro seen
    show (((findNewReleases hash debug seen b).2 ++
      (processScans hash debug bs (findNewReleases hash debug seen b).1).2).map
        (fun r => hash r.release)).Nodup
    rw [List.map_append, List.nodup_append]
    refine ⟨findNewReleases_yield_nodup hash debug seen b,
      ih (findNewReleases hash debug seen b).1, ?_⟩
    intro a hays hazs
    rcases List.mem_map.mp hays with ⟨y, hy, hyeq⟩
    rcases List.mem_map.mp hazs with ⟨z, hz, hzeq⟩
    have h1 := findNewReleases_yield_mem hash debug seen b y hy
    have h2 := processScans_yield_mem hash debug bs
      (findNewReleases hash debug seen b).1 z hz
    exact h2.2 ((hzeq.trans hyeq.symm) ▸ h1.1)

theorem length_le_one_of_const_nodup {α : Type} :
    ∀ (l : List α) (x : α), (∀ y ∈ l, y = x) → l.Nodup → l.length ≤ 1 := by
  intro l x hconst hnd
  match l with
  | [] => exact Nat.zero_le 1
  | [a] => exact Nat.le_refl 1
  | a :: b :: t =>
    have hab : a = b := (hconst a (List.mem_cons_self _ _)).trans
      (hconst b (List.mem_cons_of_mem _ (List.mem_cons_self _ _))).symm
    have := (List.nodup_cons.mp hnd).1
    exact absurd (hab ▸ List.mem_cons_self b t) this

/-- C2: within one process lifetime (any sequence of scans starting from the
empty `OLD_HASH_SET`), at most one candidate with a given release name is
ever yielded as new by `find_new_releases` — the name's hash enters the
seen-set with its first yield and every later candidate hashing to the same
key is filtered out.  The hash function is arbitrary: equal names always
collapse to equal keys. -/
theorem c2_dedup_at_most_once (hash : String → String) (debug : Bool)
    (batches : List (List Release)) (name : String) :
    ((processScans hash debug batches []).2.filter
      (fun r => r.release == name)).length ≤ 1 := by
  have hnd := processScans_yield_nodup hash debug batches []
  have hsub : List.Sublist
      (((processScans hash debug batches []).2.filter
        (fun r => r.release == name)).map (fun r => hash r.release))
      ((processScans hash debug batches []).2.map (fun r => hash r.release)) :=
    List.Sublist.map _ (List.filter_sublist _)
  have hnd2 := List.Nodup.sublist hsub hnd
  have hconst : ∀ y ∈ ((processScans hash debug batches []).2.filter
      (fun r => r.release == name)).map (fun r => hash r.release),
      y = hash name := by
    intro y hy
    rcases List.mem_map.mp hy with ⟨r, hrmem, hreq⟩
    have hname : r.release = name :=
      eq_of_beq (List.mem_filter.mp hrmem).2
    rw [← hreq, hname]
  have hlen := length_le_one_of_const_nodup _ (hash name) hconst hnd2
  rw [List.length_map] at hlen
  exact hlen

/-! ## Claim C7 — identifier extraction

`tidExtractClaim` (the spec's words, case-insensitive placeholder) and
`tidExtract` (the source regex, uppercase placeholder only) disagree on a
document containing a lowercase `x` inside the candidate run, refuting the
claim as stated.  The amended claim is proved as a declarative
characterization of `tidExtract`: it returns exactly the leftmost, maximal
occurrence of `01` followed by twelve or more characters that are hex
digits of either case or the uppercase placeholder `X`, with every `X`
replaced by `0`. -/

/-- The character class of the amended claim, as a proposition: a decimal
digit, an uppercase or lowercase hex letter, or the uppercase placeholder. -/
def TidClassChar (c : Char) : Prop :=
  ('0' ≤ c ∧ c ≤ '9') ∨ ('A' ≤ c ∧ c ≤ 'F') ∨ ('a' ≤ c ∧ c ≤ 'f') ∨ c = 'X'

theorem isTidChar_iff (c : Char) : isTidChar c = true ↔ TidClassChar c := by
  simp [isTidChar, TidClassChar, Bool.or_eq_true, Bool.and_eq_true,
    decide_eq_true_eq, or_assoc]

/-- The pattern `01[A-Fa-f0-9X]{12,}` matches at the head of `l` with match
text `m`: after the literal `01` comes a run of at least twelve class
characters which cannot be extended to the right. -/
def TidMatchesAt (l m : List Char) : Prop :=
  ∃ run rest, l = '0' :: '1' :: (run ++ rest) ∧ 12 ≤ run.length ∧
    (∀ c ∈ run, TidClassChar c) ∧
    (∀ c, rest.head? = some c → ¬ TidClassChar c) ∧
    m = '0' :: '1' :: run

theorem head?_dropWhile_not {α : Type} (p : α → Bool) :
    ∀ (l : List α) (c : α), (l.dropWhile p).head? = some c → p c = false := by
  intro l
  induction l with
  | nil => intro c hc; exact Option.noConfusion hc
  | cons a l ih =>
    intro c hc
    by_cases ha : p a = true
    · rw [List.dropWhile_cons_of_pos ha] at hc
      exact ih c hc
    · rw [List.dropWhile_cons_of_neg ha] at hc
      have : a = c := Option.some_inj.mp hc
      subst this
      exact Bool.eq_false_iff.mpr ha

theorem takeWhile_of_append {α : Type} (p : α → Bool) :
    ∀ (run rest : List α), (∀ c ∈ run, p c = true) →
      (∀ c, rest.head? = some c → p c = false) →
      (run ++ rest).takeWhile p = run := by
  intro run
  induction run with
  | nil =>
    intro rest _ hhead
    cases rest with
    | nil => rfl
    | cons b t =>
      rw [List.nil_append, List.takeWhile_cons_of_neg]
      rw [hhead b rfl]
      exact Bool.false_ne_true
  | cons a run ih =>
    intro rest hall hhead
    rw [List.cons_append,
      List.takeWhile_cons_of_pos (hall a (List.mem_cons_self _ _)),
      ih rest (fun c hc => hall c (List.mem_cons_of_mem _ hc)) hhead]

theorem tidMatchAt_some_iff (l m : List Char) :
    tidMatchAt l = some m ↔ TidMatchesAt l m := by
  constructor
  · intro h
    match l with
    | [] => exact Option.noConfusion h
    | [c1] => exact Option.noConfusion h
    | c1 :: c2 :: rest =>
      rw [tidMatchAt] at h
      by_cases hc : c1 = '0' ∧ c2 = '1'
      · rw [if_pos hc] at h
        obtain ⟨rfl, rfl⟩ := hc
        by_cases hlen : 12 ≤ (rest.takeWhile isTidChar).length
        · rw [if_pos hlen] at h
          refine ⟨rest.takeWhile isTidChar, rest.dropWhile isTidChar,
            ?_, hlen, ?_, ?_, (Option.some_inj.mp h).symm⟩
          · rw [List.takeWhile_append_dropWhile]
          · exact fun c hc => (isTidChar_iff c).mp (List.mem_takeWhile_imp hc)
          · intro c hc hclass
            have hfalse := head?_dropWhile_not isTidChar rest c hc
            rw [(isTidChar_iff c).mpr hclass] at hfalse
            exact Bool.noConfusion hfalse
        · rw [if_neg hlen] at h
          exact Option.noConfusion h
      · rw [if_neg hc] at h
        exact Option.noConfusion h
  · rintro ⟨run, rest, hl, hlen, hall, hhead, hm⟩
    subst hl
    subst hm
    have hall2 : ∀ c ∈ run, isTidChar c = true :=
      fun c hc => (isTidChar_iff c).mpr (hall c hc)
    have hhead2 : ∀ c, rest.head? = some c → isTidChar c = false := by
      intro c hc
      cases hb : isTidChar c with
      | false => rfl
      | true => exact absurd ((isTidChar_iff c).mp hb) (hhead c hc)
    rw [tidMatchAt, if_pos ⟨rfl, rfl⟩]
    show (if 12 ≤ ((run ++ rest).takeWhile isTidChar).length then
        some ('0' :: '1' :: (run ++ rest).takeWhile isTidChar) else none) =
      some ('0' :: '1' :: run)
    rw [takeWhile_of_append isTidChar run rest hall2 hhead2, if_pos hlen]

theorem tidMatchAt_none_iff (l : List Char) :
    tidMatchAt l = none ↔ ∀ m, ¬ TidMatchesAt l m := by
  constructor
  · intro h0 m hM
    have h1 := (tidMatchAt_some_iff l m).mpr hM
    rw [h0] at h1
    exact Option.noConfusion h1
  · intro hall
    cases h : tidMatchAt l with
    | none => rfl
    | some m => exact absurd ((tidMatchAt_some_iff l m).mp h) (hall m)

/-- `re.search` with this pattern, declaratively: `tidSearch` returns `m`
exactly when the pattern matches at some start position with text `m` and
matches at no earlier start position. -/
theorem tidSearch_some_iff :
    ∀ (l : List Char) (m : List Char), tidSearch l = some m ↔
      ∃ i, TidMatchesAt (l.drop i) m ∧
        ∀ j, j < i → ∀ m2, ¬ TidMatchesAt (l.drop j) m2 := by
  intro l
  induction l with
  | nil =>
    intro m
    constructor
    · intro h
      exact Option.noConfusion h
    · rintro ⟨i, hM, _⟩
      rw [List.drop_nil] at hM
      obtain ⟨run, rest, habs, _⟩ := hM
      exact List.noConfusion habs
  | cons c rest ih =>
    intro m
    cases hma : tidMatchAt (c :: rest) with
    | some m0 =>
      rw [tidSearch, hma]
      constructor
      · intro h
        obtain rfl : m0 = m := Option.some_inj.mp h
        refine ⟨0, ?_, fun j hj => absurd hj (Nat.not_lt_zero j)⟩
        rw [List.drop_zero]
        exact (tidMatchAt_some_iff _ _).mp hma
      · rintro ⟨i, hM, hmin⟩
        cases i with
        | zero =>
          rw [List.drop_zero] at hM
          have h1 := (tidMatchAt_some_iff _ _).mpr hM
          rw [hma] at h1
          exact h1
        | succ i0 =>
          exact absurd (by rw [List.drop_zero]; exact (tidMatchAt_some_iff _ _).mp hma)
            (hmin 0 (Nat.succ_pos i0) m0)
    | none =>
      rw [tidSearch, hma, ih m]
      constructor
      · rintro ⟨i, hM, hmin⟩
        refine ⟨i + 1, ?_, ?_⟩
        · rw [List.drop_succ_cons]
          exact hM
        · intro j hj m2
          cases j with
          | zero =>
            rw [List.drop_zero]
            exact (tidMatchAt_none_iff _).mp hma m2
          | succ j0 =>
            rw [List.drop_succ_cons]
            exact hmin j0 (Nat.lt_of_succ_lt_succ hj) m2
      · rintro ⟨i, hM, hmin⟩
        cases i with
        | zero =>
          rw [List.drop_zero] at hM
          exact absurd hM ((tidMatchAt_none_iff _).mp hma m)
        | succ i0 =>
          refine ⟨i0, ?_, ?_⟩
          · rw [List.drop_succ_cons] at hM
            exact hM
          · intro j hj m2
            have h2 := hmin (j + 1) (Nat.succ_lt_succ hj) m2
            rw [List.drop_succ_cons] at h2
            exact h2

/-- C7 counterexample: the source's character class `[A-Fa-f0-9X]` accepts
only the UPPERCASE placeholder, so on a document whose candidate run is
interrupted by a lowercase `x` the code finds no identifier, while the
claim's case-insensitive reading extracts one — the two disagree. -/
theorem c7_extraction_counterexample :
    tidExtract "01ABCDEF1234x5678" = none ∧
    tidExtractClaim "01ABCDEF1234x5678" = some "01ABCDEF123405678" ∧
    tidExtract "01ABCDEF1234x5678" ≠ tidExtractClaim "01ABCDEF1234x5678" := by
  decide

/-- C7 amended: identifier extraction finds the first (leftmost, and there
maximal) substring of the document consisting of `01` followed by twelve or
more characters that are hexadecimal digits of either case or the UPPERCASE
placeholder `X` — the placeholder is not matched case-insensitively — and
then replaces every `X` occurrence with `0` to produce the raw identifier. -/
theorem c7_extraction_amended (s : String) (r : String) :
    tidExtract s = some r ↔
      ∃ i m, TidMatchesAt (s.data.drop i) m ∧
        (∀ j, j < i → ∀ m2, ¬ TidMatchesAt (s.data.drop j) m2) ∧
        r = String.mk (replaceX m) := by
  rw [tidExtract, Option.map_eq_some']
  constructor
  · rintro ⟨m, hsearch, hr⟩
    obtain ⟨i, hM, hmin⟩ := (tidSearch_some_iff s.data m).mp hsearch
    exact ⟨i, m, hM, hmin, hr.symm⟩
  · rintro ⟨i, m, hM, hmin, hr⟩
    exact ⟨m, (tidSearch_some_iff s.data m).mpr ⟨i, hM, hmin⟩, hr.symm⟩


end SwitchPredb
